import Mathlib

/-!
Verification of the recursive object-introspection engine of
`inventree_part_templates` (file `templatetags/inspect.py`).

Modelling conventions (shallow embedding):

* A Python object graph is a heap: `Heap := List Obj`, where object
  references are heap addresses (`Nat`).  `id(obj)` is the address.
  Reading an out-of-range address yields the `None` object; the canonical
  address of the `None` singleton in a heap `h` is `noneAddr h = h.length`
  (the first address outside the heap), so that `id(None)` is distinct
  from the address of every object stored in the heap.
* The Python `WHITELIST_USE_SIMPLE_TYPE` types are modelled by the
  constructors `vStr`, `vInt`, `vBool` (str/int/bool; the remaining
  whitelist entries such as Decimal/Money/date behave identically for the
  claims and are omitted from the universe).  `None` is `vNone`.
* `isinstance` dispatch in `inspect_factory` is an ordered chain of
  disjoint type tests; in the model the `Obj` constructors are disjoint,
  so the chain becomes a single `match` (with the class fallback as the
  catch-all, mirroring the final `return InspectClass(...)`).
* A class instance is `vClass dnc attrs`: `attrs` lists the
  non-filtered enumeration order of `dir(obj)` together with the outcome
  of reading each attribute (`AttrVal.val addr`, or
  `AttrVal.attrError msg` when the getter raises `AttributeError`, which
  `getattr(obj, name, None)` converts to `None`).  `dnc` models a truthy
  `do_not_call_in_templates` attribute.
* The traversal state (`InspectionManager._processed`, a dict used as an
  id set) is a `List Nat` of registered addresses, threaded explicitly.
* `raise ValueError(...)` in `inspect_factory` is `Except.error
  Err.depthExceeded`; the depth counter is modelled as `Nat` fuel (the
  Python `int` entry point `inspectFactory` maps negative depths to fuel
  0, which errors exactly like the `depth <= 0` guard).
-/

namespace PartTemplatesInspect

/-- Outcome of reading one attribute during `dir(obj)` enumeration:
either a value (an address) or an `AttributeError` with a message. -/
inductive AttrVal where
  | val (addr : Nat)
  | attrError (msg : String)
deriving DecidableEq

/-- A Python runtime value, as classified by `inspect_factory`. -/
inductive Obj where
  | vStr (s : String)
  | vInt (n : Int)
  | vBool (b : Bool)
  | vNone
  | vMethod (params : List String)
  | vPartialCall (funcName : String) (params : List String)
      (args : List Nat) (kwargs : List (String × Nat))
  | vDict (entries : List (String × Nat))
  | vList (items : List Nat)
  | vQuerySet (items : List Nat)
  | vBuiltin
  | vType
  | vClass (dnc : Bool) (attrs : List (String × AttrVal))
deriving DecidableEq

/-- An object heap; addresses are indices, `id(obj)` is the address. -/
abbrev Heap := List Obj

/-- Dereference an address; out-of-range addresses read as `None`. -/
def heapGet (h : Heap) (a : Nat) : Obj := h.getD a Obj.vNone

/-- The canonical address of the `None` singleton for heap `h`. -/
def noneAddr (h : Heap) : Nat := h.length

/-- Python `str(obj)` for the values the engine stringifies. -/
def pyStr : Obj → String
  | .vStr s => s
  | .vInt n => toString n
  | .vBool b => if b then "True" else "False"
  | .vNone => "None"
  | _ => "<object>"

/-- `isinstance(obj, InspectionManager.WHITELIST_USE_SIMPLE_TYPE)`. -/
def isWhitelistSimple : Obj → Bool
  | .vStr _ => true
  | .vInt _ => true
  | .vBool _ => true
  | _ => false

/-- `obj is None`. -/
def isNoneObj : Obj → Bool
  | .vNone => true
  | _ => false

/-- The combined test `isinstance(obj, WHITELIST...) or obj is None`
used by both `inspect_factory` and `been_seen_before`. -/
def isSimpleOrNone (o : Obj) : Bool := isWhitelistSimple o || isNoneObj o

/-- Character-list test used to model Python string predicates by
direct structural comparison: does the second list begin with the
first? -/
def charsBeginWith : List Char → List Char → Bool
  | [], _ => true
  | _ :: _, [] => false
  | p :: ps, c :: cs => p == c && charsBeginWith ps cs

/-- Python `s.startswith(pat)`. -/
def pyStartsWith (s pat : String) : Bool := charsBeginWith pat.data s.data

/-- Substring scan over a character list. -/
def charsContain (pat : List Char) : List Char → Bool
  | [] => charsBeginWith pat []
  | c :: cs => charsBeginWith pat (c :: cs) || charsContain pat cs

/-- Python substring test `pat in s`. -/
def strContains (s pat : String) : Bool := charsContain pat.data s.data

/-- Python `s.lower()`. -/
def pyLower (s : String) : String := String.mk (s.data.map Char.toLower)

/-- Wrap a string in double quotes, as the f-strings in
`get_format_value` do. -/
def pyQuote (s : String) : String := "\"" ++ s ++ "\""

/-- The diagnostic variant tag (`inspection.__class__.__name__` in
`_build_context`). -/
inductive Kind where
  | simpleType
  | method
  | partialCall
  | duplicate
  | dict
  | list
  | querySet
  | cls
deriving DecidableEq

/-- The per-node fields `_build_context` extracts from an `InspectBase`
object via its getters (everything except the child list). -/
structure NodeInfo where
  kind : Kind
  name : String
  title : String
  objId : Nat
  linkTo : Option Nat
  value : String
  preText : String
  postText : String
  totalChildren : Option Nat
deriving DecidableEq

/-- A node of the inspection tree.  `children` mirrors
`get_children()`: `none` when `get_total_children()` is `None`
(value-only variants), otherwise `some` of the `_children` list. -/
inductive Node where
  | mk (info : NodeInfo) (children : Option (List Node))

/-- Field projection for `Node`. -/
def Node.info : Node → NodeInfo
  | .mk i _ => i

/-- Child-list projection for `Node`. -/
def Node.children : Node → Option (List Node)
  | .mk _ c => c

/-!
Node constructors, one per `InspectBase` subclass.  Each records the
getter results `_build_context` would read: `title` from
`get_format_title`, `objId` from `get_format_id` (= `id(self._obj)`),
`linkTo` from `get_format_link_to`, `value` from `get_format_value`,
`preText`/`postText` from `get_format_prefix`/`get_format_postfix`,
`totalChildren` from `get_total_children`, and the child list from
`get_children` (`none` exactly when `get_total_children()` is `None`).
-/

/-- `InspectSimpleType.__init__`: `self._value = str(obj)` (always a
`str` object). -/
def simpleValueObj (o : Obj) : Obj := Obj.vStr (pyStr o)

/-- `InspectSimpleType.get_format_value`: quote the value if it is a
`str` (masking names containing "password"), otherwise return
`str(self._value)` unquoted. -/
def simpleGetFormatValue (name : String) (o : Obj) : String :=
  match simpleValueObj o with
  | .vStr s =>
      if strContains (pyLower name) "password" then
        pyQuote (String.mk (List.replicate s.length '*'))
      else
        pyQuote s
  | v => pyStr v

/-- Node produced by `InspectSimpleType`. -/
def simpleNode (name : String) (a : Nat) (o : Obj) : Node :=
  Node.mk
    { kind := Kind.simpleType, name := name, title := name, objId := a,
      linkTo := none, value := simpleGetFormatValue name o,
      preText := "=", postText := "", totalChildren := none }
    none

/-- Node produced by `InspectMethod`: value is the comma-joined formal
parameter names from the signature. -/
def methodNode (name : String) (a : Nat) (params : List String) : Node :=
  Node.mk
    { kind := Kind.method, name := name, title := name, objId := a,
      linkTo := none, value := String.intercalate ", " params,
      preText := "(", postText := ")", totalChildren := none }
    none

/-- `InspectPartial.__init__` body for one formal parameter: look up a
pre-bound positional (`i < len(args)`) or keyword argument; the local
`value` starts as Python `None`, and after the
`isinstance(value, WHITELIST...)` test it is replaced by `str(value)`
or the literal `"(complex)"` — so it is never `None` when stored. -/
def partialBoundValue (h : Heap) (args : List Nat)
    (kwargs : List (String × Nat)) (i : Nat) (pname : String) :
    Option String :=
  let bound : Option Nat :=
    if i < args.length then args[i]?
    else
      match kwargs.find? (fun kv => kv.1 == pname) with
      | some kv => some kv.2
      | none => none
  match bound with
  | some b =>
      if isWhitelistSimple (heapGet h b) then some (pyStr (heapGet h b))
      else some "(complex)"
  | none => some "(complex)"

/-- The `self._parameters` list of `InspectPartial`. -/
def partialStoredParams (h : Heap) (params : List String)
    (args : List Nat) (kwargs : List (String × Nat)) :
    List (String × Option String) :=
  params.enum.map (fun p => (p.2, partialBoundValue h args kwargs p.1 p.2))

/-- `InspectPartial.get_format_value`: a parameter with stored value
`None` renders as its bare name, otherwise as `name=value`. -/
def partialFormatValue (params : List (String × Option String)) : String :=
  String.intercalate ", "
    (params.map (fun p =>
      match p.2 with
      | none => p.1
      | some v => p.1 ++ "=" ++ v))

/-- Node produced by `InspectPartial`; the title is
`f"{self._name}(...) -> {self._parent_name}"`. -/
def partialNode (h : Heap) (name : String) (a : Nat) (funcName : String)
    (params : List String) (args : List Nat)
    (kwargs : List (String × Nat)) : Node :=
  Node.mk
    { kind := Kind.partialCall, name := name,
      title := name ++ "(...) -> " ++ funcName, objId := a,
      linkTo := none,
      value := partialFormatValue (partialStoredParams h params args kwargs),
      preText := "(", postText := ")", totalChildren := none }
    none

/-- Node produced by `InspectDuplicate`.  `_add_child` constructs it
with `obj = None`, so `get_format_id` and `get_format_link_to` both
return `id(None)` (the canonical `None` address of the heap). -/
def dupNode (h : Heap) (name : String) : Node :=
  Node.mk
    { kind := Kind.duplicate, name := name, title := name,
      objId := noneAddr h, linkTo := some (noneAddr h),
      value := "(duplicated)", preText := "", postText := "",
      totalChildren := none }
    none

/-- Node produced by `InspectDict`: `self._total_items = len(obj)`. -/
def dictNode (name : String) (a : Nat) (entries : List (String × Nat))
    (cs : List Node) : Node :=
  Node.mk
    { kind := Kind.dict, name := name, title := name, objId := a,
      linkTo := none, value := "", preText := "\x7b", postText := "\x7d",
      totalChildren := some entries.length }
    (some cs)

/-- Node produced by `InspectList`: `self._total_items = len(obj)`. -/
def listNode (name : String) (a : Nat) (items : List Nat)
    (cs : List Node) : Node :=
  Node.mk
    { kind := Kind.list, name := name, title := name, objId := a,
      linkTo := none, value := "", preText := "[", postText := "]",
      totalChildren := some items.length }
    (some cs)

/-- Node produced by `InspectQuerySet`:
`self._total_items = obj.count()`. -/
def qsNode (name : String) (a : Nat) (items : List Nat)
    (cs : List Node) : Node :=
  Node.mk
    { kind := Kind.querySet, name := name, title := name, objId := a,
      linkTo := none, value := "", preText := "[", postText := "]",
      totalChildren := some items.length }
    (some cs)

/-- Node produced by `InspectClass`: `get_total_children` returns
`len(self._children)` (the expanded children, not a true total). -/
def clsNode (name : String) (a : Nat) (cs : List Node) : Node :=
  Node.mk
    { kind := Kind.cls, name := name, title := name, objId := a,
      linkTo := none, value := "", preText := "\x7b", postText := "\x7d",
      totalChildren := some cs.length }
    (some cs)

/-- The error raised by `inspect_factory` when invoked with
non-positive depth (`ValueError("Internal error ... Depth exceeded")`). -/
inductive Err where
  | depthExceeded
deriving DecidableEq

/-- `InspectionManager.been_seen_before`: simple types and `None` are
exempt; otherwise test membership of `id(obj)` in `_processed` and
register it when new.  Returns the answer and the updated set. -/
def beenSeenBefore (h : Heap) (s : List Nat) (a : Nat) : Bool × List Nat :=
  if isSimpleOrNone (heapGet h a) then (false, s)
  else if a ∈ s then (true, s)
  else (false, a :: s)

/-- The type of the recursive classification hook handed to the child
loops: `(name, address, visited-set) → result`
(`InspectionManager.inspect_factory` at the child depth). -/
abbrev RecFn := String → Nat → List Nat → Except Err (Node × List Nat)

/-- `InspectBase._add_child`: consult `been_seen_before`; append an
`InspectDuplicate` for an already-seen object, otherwise append the
result of `inspect_factory(name, value, self._depth)`. -/
def addChildF (rf : RecFn) (h : Heap) (name : String) (v : Nat)
    (s : List Nat) (acc : List Node) :
    Except Err (List Node × List Nat) :=
  if (beenSeenBefore h s v).1 then
    Except.ok (acc ++ [dupNode h name], (beenSeenBefore h s v).2)
  else
    match rf name v (beenSeenBefore h s v).2 with
    | .ok (n, s2) => Except.ok (acc ++ [n], s2)
    | .error e => Except.error e

/-- The `for key, value in obj.items()` loop of `InspectDict.__init__`:
add a child when `depth > 0`, then break once
`len(self._children) >= max_items`. -/
def dictLoopF (rf : RecFn) (h : Heap) (mi : Nat) (d : Nat) :
    List (String × Nat) → List Nat → List Node →
    Except Err (List Node × List Nat)
  | [], s, acc => Except.ok (acc, s)
  | (k, v) :: rest, s, acc =>
    match (if 0 < d then addChildF rf h k v s acc else Except.ok (acc, s)) with
    | .error e => Except.error e
    | .ok (acc1, s1) =>
      if mi ≤ acc1.length then Except.ok (acc1, s1)
      else dictLoopF rf h mi d rest s1 acc1

/-- The `for index, item in enumerate(obj)` loop of
`InspectList.__init__`: add a child when `depth > 0`, then break once
`index >= max_items` (note: the index, not the child count). -/
def listLoopF (rf : RecFn) (h : Heap) (mi : Nat) (d : Nat) :
    Nat → List Nat → List Nat → List Node →
    Except Err (List Node × List Nat)
  | _, [], s, acc => Except.ok (acc, s)
  | idx, v :: rest, s, acc =>
    match (if 0 < d then addChildF rf h (toString idx) v s acc
           else Except.ok (acc, s)) with
    | .error e => Except.error e
    | .ok (acc1, s1) =>
      if mi ≤ idx then Except.ok (acc1, s1)
      else listLoopF rf h mi d (idx + 1) rest s1 acc1

/-- The loop of `InspectQuerySet.__init__` over the already-sliced
`obj.all()[:max_items]`; every fetched item is added (no break). -/
def qsLoopF (rf : RecFn) (h : Heap) :
    Nat → List Nat → List Nat → List Node →
    Except Err (List Node × List Nat)
  | _, [], s, acc => Except.ok (acc, s)
  | idx, v :: rest, s, acc =>
    match addChildF rf h (toString idx) v s acc with
    | .error e => Except.error e
    | .ok (acc1, s1) => qsLoopF rf h (idx + 1) rest s1 acc1

/-- `getattr(obj, attr_name, None)`: an `AttributeError` from the
getter is converted to the `None` default. -/
def classChildAddr (h : Heap) (av : AttrVal) : Nat :=
  match av with
  | .val b => b
  | .attrError _ => noneAddr h

/-- The value-based skip tests of `InspectClass.__init__`:
`inspect.isbuiltin(value)`, `isinstance(value, type)`, and a truthy
`do_not_call_in_templates` attribute. -/
def classSkip (h : Heap) (addr : Nat) : Bool :=
  match heapGet h addr with
  | .vBuiltin => true
  | .vType => true
  | .vClass dnc _ => dnc
  | _ => false

/-- The `for attr_name in dir(obj)` loop of `InspectClass.__init__`:
skip private names (leading underscore), read the attribute with a
`None` default, apply the value-based skip tests, and add a child when
`depth > 0`.  No breadth budget is applied. -/
def classLoopF (rf : RecFn) (h : Heap) (d : Nat) :
    List (String × AttrVal) → List Nat → List Node →
    Except Err (List Node × List Nat)
  | [], s, acc => Except.ok (acc, s)
  | (an, av) :: rest, s, acc =>
    if pyStartsWith an "_" then classLoopF rf h d rest s acc
    else
      if classSkip h (classChildAddr h av) then classLoopF rf h d rest s acc
      else
        match (if 0 < d then addChildF rf h an (classChildAddr h av) s acc
               else Except.ok (acc, s)) with
        | .error e => Except.error e
        | .ok (acc1, s1) => classLoopF rf h d rest s1 acc1

/-- The attribute enumeration an object offers to `InspectClass`
(empty for non-class fallback objects). -/
def classAttrs : Obj → List (String × AttrVal)
  | .vClass _ attrs => attrs
  | _ => []

/-- `InspectionManager.inspect_factory` on non-negative depths, with
the depth as `Nat` fuel.  Fuel 0 is the `depth <= 0` guard
(`raise ValueError`).  At fuel `m + 1` the constructed node carries
depth `m` (`depth - 1` in the source), and its child loops re-enter the
factory at that depth via `_add_child`. -/
def inspectGo (h : Heap) (mi : Nat) :
    Nat → String → Nat → List Nat → Except Err (Node × List Nat)
  | 0, _, _, _ => Except.error Err.depthExceeded
  | m + 1, name, a, s =>
    let rf : RecFn := fun nm v st => inspectGo h mi m nm v st
    match heapGet h a with
    | .vStr x => Except.ok (simpleNode name a (Obj.vStr x), s)
    | .vInt x => Except.ok (simpleNode name a (Obj.vInt x), s)
    | .vBool x => Except.ok (simpleNode name a (Obj.vBool x), s)
    | .vNone => Except.ok (simpleNode name a Obj.vNone, s)
    | .vMethod ps => Except.ok (methodNode name a ps, s)
    | .vPartialCall fn ps args kwargs =>
        Except.ok (partialNode h name a fn ps args kwargs, s)
    | .vDict entries =>
        match dictLoopF rf h mi m entries s [] with
        | .error e => Except.error e
        | .ok (cs, s1) => Except.ok (dictNode name a entries cs, s1)
    | .vList items =>
        match listLoopF rf h mi m 0 items s [] with
        | .error e => Except.error e
        | .ok (cs, s1) => Except.ok (listNode name a items cs, s1)
    | .vQuerySet items =>
        if 0 < items.length ∧ 0 < m then
          match qsLoopF rf h 0 (items.take mi) s [] with
          | .error e => Except.error e
          | .ok (cs, s1) => Except.ok (qsNode name a items cs, s1)
        else Except.ok (qsNode name a items [], s)
    | o =>
        match classLoopF rf h m (classAttrs o) s [] with
        | .error e => Except.error e
        | .ok (cs, s1) => Except.ok (clsNode name a cs, s1)

/-- `InspectionManager.inspect_factory` with its Python `int` depth:
`raise ValueError` when `depth <= 0`, otherwise classify. -/
def inspectFactory (h : Heap) (mi : Nat) (name : String) (a : Nat)
    (depth : Int) (s : List Nat) : Except Err (Node × List Nat) :=
  if depth ≤ 0 then Except.error Err.depthExceeded
  else inspectGo h mi depth.toNat name a s

/-- `InspectionManager.__init__`: fresh empty visited set, then
`self._base = self.inspect_factory(name, obj, max_depth + 1)`. -/
def InspectionManager (h : Heap) (name : String) (a : Nat)
    (maxDepth : Int) (maxItems : Nat) : Except Err Node :=
  match inspectFactory h maxItems name a (maxDepth + 1) [] with
  | .ok (n, _) => Except.ok n
  | .error e => Except.error e

/-! Observation helpers used to state properties of results. -/

/-- Whether a run completed without raising. -/
def exOk {α : Type} (r : Except Err α) : Bool :=
  match r with
  | .ok _ => true
  | .error _ => false

/-- The root node of a completed run. -/
def rootNode (r : Except Err Node) : Option Node :=
  match r with
  | .ok n => some n
  | .error _ => none

/-- The i-th expanded child of a node, when children were expanded. -/
def childAt (n : Node) (i : Nat) : Option Node :=
  match Node.children n with
  | some cs => cs[i]?
  | none => none

/-- The variant tag of a node. -/
def kindOf (n : Node) : Kind := (Node.info n).kind

mutual

/-- Height of an inspection tree (a node with unexpanded or empty
children has height 1). -/
def nodeHeight : Node → Nat
  | .mk _ cs => 1 + nodeHeightOpt cs

/-- Height of an optional child list. -/
def nodeHeightOpt : Option (List Node) → Nat
  | none => 0
  | some cs => nodeHeightList cs

/-- Height of a child list (0 when empty). -/
def nodeHeightList : List Node → Nat
  | [] => 0
  | c :: rest => max (nodeHeight c) (nodeHeightList rest)

end

theorem nodeHeightList_append (l1 l2 : List Node) :
    nodeHeightList (l1 ++ l2) = max (nodeHeightList l1) (nodeHeightList l2) := by
  induction l1 with
  | nil => simp [nodeHeightList]
  | cons c rest ih => simp [nodeHeightList, ih, Nat.max_assoc]

/-! Totality of the traversal: `inspectGo` with positive fuel never
raises, on every heap (cyclic object graphs included). -/

theorem addChildF_ok (rf : RecFn)
    (Hrf : ∀ nm v st, ∃ r, rf nm v st = Except.ok r)
    (h : Heap) (name : String) (v : Nat) (s : List Nat) (acc : List Node) :
    ∃ r, addChildF rf h name v s acc = Except.ok r := by
  unfold addChildF
  by_cases hs : (beenSeenBefore h s v).1 = true
  · simp only [hs, if_true]
    exact ⟨_, rfl⟩
  · obtain ⟨⟨n, s2⟩, hr⟩ := Hrf name v (beenSeenBefore h s v).2
    simp only [hs, if_false, hr]
    exact ⟨_, rfl⟩

theorem dictLoopF_ok (rf : RecFn) (h : Heap) (mi d : Nat)
    (Hrf : 0 < d → ∀ nm v st, ∃ r, rf nm v st = Except.ok r) :
    ∀ (entries : List (String × Nat)) (s : List Nat) (acc : List Node),
    ∃ r, dictLoopF rf h mi d entries s acc = Except.ok r := by
  intro entries
  induction entries with
  | nil => exact fun s acc => ⟨(acc, s), rfl⟩
  | cons e rest ih =>
    intro s acc
    obtain ⟨k, v⟩ := e
    rw [dictLoopF]
    by_cases hd : 0 < d
    · obtain ⟨⟨acc1, s1⟩, ha⟩ := addChildF_ok rf (Hrf hd) h k v s acc
      simp only [hd, if_true, ha]
      by_cases hb : mi ≤ acc1.length
      · simp only [hb, if_true]
        exact ⟨_, rfl⟩
      · obtain ⟨r, hr⟩ := ih s1 acc1
        simp only [hb, if_false, hr]
        exact ⟨r, rfl⟩
    · simp only [hd, if_false]
      by_cases hb : mi ≤ acc.length
      · simp only [hb, if_true]
        exact ⟨_, rfl⟩
      · obtain ⟨r, hr⟩ := ih s acc
        simp only [hb, if_false, hr]
        exact ⟨r, rfl⟩

theorem listLoopF_ok (rf : RecFn) (h : Heap) (mi d : Nat)
    (Hrf : 0 < d → ∀ nm v st, ∃ r, rf nm v st = Except.ok r) :
    ∀ (items : List Nat) (idx : Nat) (s : List Nat) (acc : List Node),
    ∃ r, listLoopF rf h mi d idx items s acc = Except.ok r := by
  intro items
  induction items with
  | nil => exact fun idx s acc => ⟨(acc, s), rfl⟩
  | cons v rest ih =>
    intro idx s acc
    rw [listLoopF]
    by_cases hd : 0 < d
    · obtain ⟨⟨acc1, s1⟩, ha⟩ := addChildF_ok rf (Hrf hd) h (toString idx) v s acc
      simp only [hd, if_true, ha]
      by_cases hb : mi ≤ idx
      · simp only [hb, if_true]
        exact ⟨_, rfl⟩
      · obtain ⟨r, hr⟩ := ih (idx + 1) s1 acc1
        simp only [hb, if_false, hr]
        exact ⟨r, rfl⟩
    · simp only [hd, if_false]
      by_cases hb : mi ≤ idx
      · simp only [hb, if_true]
        exact ⟨_, rfl⟩
      · obtain ⟨r, hr⟩ := ih (idx + 1) s acc
        simp only [hb, if_false, hr]
        exact ⟨r, rfl⟩

theorem qsLoopF_ok (rf : RecFn) (h : Heap)
    (Hrf : ∀ nm v st, ∃ r, rf nm v st = Except.ok r) :
    ∀ (items : List Nat) (idx : Nat) (s : List Nat) (acc : List Node),
    ∃ r, qsLoopF rf h idx items s acc = Except.ok r := by
  intro items
  induction items with
  | nil => exact fun idx s acc => ⟨(acc, s), rfl⟩
  | cons v rest ih =>
    intro idx s acc
    rw [qsLoopF]
    obtain ⟨⟨acc1, s1⟩, ha⟩ := addChildF_ok rf Hrf h (toString idx) v s acc
    obtain ⟨r, hr⟩ := ih (idx + 1) s1 acc1
    simp only [ha, hr]
    exact ⟨r, rfl⟩

theorem classLoopF_ok (rf : RecFn) (h : Heap) (d : Nat)
    (Hrf : 0 < d → ∀ nm v st, ∃ r, rf nm v st = Except.ok r) :
    ∀ (attrs : List (String × AttrVal)) (s : List Nat) (acc : List Node),
    ∃ r, classLoopF rf h d attrs s acc = Except.ok r := by
  intro attrs
  induction attrs with
  | nil => exact fun s acc => ⟨(acc, s), rfl⟩
  | cons e rest ih =>
    intro s acc
    obtain ⟨an, av⟩ := e
    rw [classLoopF]
    by_cases hu : pyStartsWith an "_"
    · simpa [hu] using ih s acc
    · by_cases hsk : classSkip h (classChildAddr h av)
      · simpa [hu, hsk] using ih s acc
      · by_cases hd : 0 < d
        · obtain ⟨⟨acc1, s1⟩, ha⟩ :=
            addChildF_ok rf (Hrf hd) h an (classChildAddr h av) s acc
          obtain ⟨r, hr⟩ := ih s1 acc1
          simp only [hu, hsk, hd, if_true, if_false, ha, hr]
          exact ⟨r, rfl⟩
        · obtain ⟨r, hr⟩ := ih s acc
          simp only [hu, hsk, hd, if_true, if_false, hr]
          exact ⟨r, rfl⟩

theorem inspectGo_isOk :
    ∀ (fuel : Nat) (h : Heap) (mi : Nat) (name : String) (a : Nat)
      (s : List Nat), 0 < fuel →
    ∃ r, inspectGo h mi fuel name a s = Except.ok r := by
  intro fuel
  induction fuel with
  | zero => intro h mi name a s hf; exact absurd hf (by omega)
  | succ m ih =>
    intro h mi name a s _
    have Hrf : 0 < m → ∀ nm v st,
        ∃ r, inspectGo h mi m nm v st = Except.ok r :=
      fun hm nm v st => ih h mi nm v st hm
    rw [inspectGo]
    cases hobj : heapGet h a with
    | vStr x => exact ⟨_, rfl⟩
    | vInt x => exact ⟨_, rfl⟩
    | vBool x => exact ⟨_, rfl⟩
    | vNone => exact ⟨_, rfl⟩
    | vMethod ps => exact ⟨_, rfl⟩
    | vPartialCall fn ps args kwargs => exact ⟨_, rfl⟩
    | vDict entries =>
        obtain ⟨⟨cs, s1⟩, hl⟩ :=
          dictLoopF_ok (fun nm v st => inspectGo h mi m nm v st) h mi m Hrf
            entries s []
        simp only [hl]
        exact ⟨_, rfl⟩
    | vList items =>
        obtain ⟨⟨cs, s1⟩, hl⟩ :=
          listLoopF_ok (fun nm v st => inspectGo h mi m nm v st) h mi m Hrf
            items 0 s []
        simp only [hl]
        exact ⟨_, rfl⟩
    | vQuerySet items =>
        by_cases hc : 0 < items.length ∧ 0 < m
        · obtain ⟨⟨cs, s1⟩, hl⟩ :=
            qsLoopF_ok (fun nm v st => inspectGo h mi m nm v st) h (Hrf hc.2)
              (items.take mi) 0 s []
          simp only [hc, if_true, hl]
          exact ⟨_, rfl⟩
        · simp only [hc, if_false]
          exact ⟨_, rfl⟩
    | vBuiltin =>
        obtain ⟨⟨cs, s1⟩, hl⟩ :=
          classLoopF_ok (fun nm v st => inspectGo h mi m nm v st) h m Hrf
            (classAttrs Obj.vBuiltin) s []
        simp only [classAttrs] at hl
        simp only [classAttrs, hl]
        exact ⟨_, rfl⟩
    | vType =>
        obtain ⟨⟨cs, s1⟩, hl⟩ :=
          classLoopF_ok (fun nm v st => inspectGo h mi m nm v st) h m Hrf
            (classAttrs Obj.vType) s []
        simp only [classAttrs] at hl
        simp only [classAttrs, hl]
        exact ⟨_, rfl⟩
    | vClass dnc attrs =>
        obtain ⟨⟨cs, s1⟩, hl⟩ :=
          classLoopF_ok (fun nm v st => inspectGo h mi m nm v st) h m Hrf
            (classAttrs (Obj.vClass dnc attrs)) s []
        simp only [classAttrs] at hl
        simp only [classAttrs, hl]
        exact ⟨_, rfl⟩

/-! Height bound: a node built with fuel `f` has height at most `f`,
so the tree is bounded by the depth budget on every object graph. -/

theorem nodeHeight_dup (h : Heap) (name : String) :
    nodeHeight (dupNode h name) = 1 := by
  simp [dupNode, nodeHeight, nodeHeightOpt]

theorem addChildF_height (rf : RecFn) (d : Nat) (hd : 0 < d)
    (Hrf : ∀ nm v st n st2,
      rf nm v st = Except.ok (n, st2) → nodeHeight n ≤ d)
    (h : Heap) (name : String) (v : Nat) (s : List Nat) (acc cs : List Node)
    (s2 : List Nat)
    (hok : addChildF rf h name v s acc = Except.ok (cs, s2)) :
    nodeHeightList cs ≤ max (nodeHeightList acc) d := by
  unfold addChildF at hok
  by_cases hs : (beenSeenBefore h s v).1 = true
  · simp only [hs, if_true, Except.ok.injEq, Prod.mk.injEq] at hok
    rw [← hok.1, nodeHeightList_append]
    have h1 : nodeHeightList [dupNode h name] ≤ d := by
      simp [nodeHeightList, nodeHeight_dup]; omega
    omega
  · rw [if_neg hs] at hok
    cases hr : rf name v (beenSeenBefore h s v).2 with
    | error e => rw [hr] at hok; exact absurd hok (by simp)
    | ok r =>
      obtain ⟨n, s3⟩ := r
      rw [hr] at hok
      simp only [Except.ok.injEq, Prod.mk.injEq] at hok
      rw [← hok.1, nodeHeightList_append]
      have h1 : nodeHeight n ≤ d := Hrf name v _ n s3 hr
      have h2 : nodeHeightList [n] ≤ d := by simp [nodeHeightList]; omega
      omega

theorem dictLoopF_height (rf : RecFn) (h : Heap) (mi d : Nat)
    (Hrf : ∀ nm v st n st2,
      rf nm v st = Except.ok (n, st2) → nodeHeight n ≤ d) :
    ∀ (entries : List (String × Nat)) (s : List Nat) (acc cs : List Node)
      (s2 : List Nat),
    dictLoopF rf h mi d entries s acc = Except.ok (cs, s2) →
    nodeHeightList cs ≤ max (nodeHeightList acc) d := by
  intro entries
  induction entries with
  | nil =>
    intro s acc cs s2 hok
    rw [dictLoopF] at hok
    simp only [Except.ok.injEq, Prod.mk.injEq] at hok
    rw [← hok.1]; omega
  | cons e rest ih =>
    intro s acc cs s2 hok
    obtain ⟨k, v⟩ := e
    rw [dictLoopF] at hok
    by_cases hd : 0 < d
    · simp only [hd, if_true] at hok
      cases ha : addChildF rf h k v s acc with
      | error e => rw [ha] at hok; exact absurd hok (by simp)
      | ok r =>
        obtain ⟨acc1, s1⟩ := r
        rw [ha] at hok
        have h1 : nodeHeightList acc1 ≤ max (nodeHeightList acc) d :=
          addChildF_height rf d hd Hrf h k v s acc acc1 s1 ha
        by_cases hb : mi ≤ acc1.length
        · simp only [hb, if_true, Except.ok.injEq, Prod.mk.injEq] at hok
          rw [← hok.1]; omega
        · simp only [hb, if_false] at hok
          have h2 := ih s1 acc1 cs s2 hok
          omega
    · simp only [hd, if_false] at hok
      by_cases hb : mi ≤ acc.length
      · simp only [hb, if_true, Except.ok.injEq, Prod.mk.injEq] at hok
        rw [← hok.1]; omega
      · simp only [hb, if_false] at hok
        exact ih s acc cs s2 hok

theorem listLoopF_height (rf : RecFn) (h : Heap) (mi d : Nat)
    (Hrf : ∀ nm v st n st2,
      rf nm v st = Except.ok (n, st2) → nodeHeight n ≤ d) :
    ∀ (items : List Nat) (idx : Nat) (s : List Nat) (acc cs : List Node)
      (s2 : List Nat),
    listLoopF rf h mi d idx items s acc = Except.ok (cs, s2) →
    nodeHeightList cs ≤ max (nodeHeightList acc) d := by
  intro items
  induction items with
  | nil =>
    intro idx s acc cs s2 hok
    rw [listLoopF] at hok
    simp only [Except.ok.injEq, Prod.mk.injEq] at hok
    rw [← hok.1]; omega
  | cons v rest ih =>
    intro idx s acc cs s2 hok
    rw [listLoopF] at hok
    by_cases hd : 0 < d
    · simp only [hd, if_true] at hok
      cases ha : addChildF rf h (toString idx) v s acc with
      | error e => rw [ha] at hok; exact absurd hok (by simp)
      | ok r =>
        obtain ⟨acc1, s1⟩ := r
        rw [ha] at hok
        have h1 : nodeHeightList acc1 ≤ max (nodeHeightList acc) d :=
          addChildF_height rf d hd Hrf h (toString idx) v s acc acc1 s1 ha
        by_cases hb : mi ≤ idx
        · simp only [hb, if_true, Except.ok.injEq, Prod.mk.injEq] at hok
          rw [← hok.1]; omega
        · simp only [hb, if_false] at hok
          have h2 := ih (idx + 1) s1 acc1 cs s2 hok
          omega
    · simp only [hd, if_false] at hok
      by_cases hb : mi ≤ idx
      · simp only [hb, if_true, Except.ok.injEq, Prod.mk.injEq] at hok
        rw [← hok.1]; omega
      · simp only [hb, if_false] at hok
        exact ih (idx + 1) s acc cs s2 hok

theorem qsLoopF_height (rf : RecFn) (h : Heap) (d : Nat) (hd : 0 < d)
    (Hrf : ∀ nm v st n st2,
      rf nm v st = Except.ok (n, st2) → nodeHeight n ≤ d) :
    ∀ (items : List Nat) (idx : Nat) (s : List Nat) (acc cs : List Node)
      (s2 : List Nat),
    qsLoopF rf h idx items s acc = Except.ok (cs, s2) →
    nodeHeightList cs ≤ max (nodeHeightList acc) d := by
  intro items
  induction items with
  | nil =>
    intro idx s acc cs s2 hok
    rw [qsLoopF] at hok
    simp only [Except.ok.injEq, Prod.mk.injEq] at hok
    rw [← hok.1]; omega
  | cons v rest ih =>
    intro idx s acc cs s2 hok
    rw [qsLoopF] at hok
    cases ha : addChildF rf h (toString idx) v s acc with
    | error e => rw [ha] at hok; exact absurd hok (by simp)
    | ok r =>
      obtain ⟨acc1, s1⟩ := r
      rw [ha] at hok
      have h1 : nodeHeightList acc1 ≤ max (nodeHeightList acc) d :=
        addChildF_height rf d hd Hrf h (toString idx) v s acc acc1 s1 ha
      have h2 := ih (idx + 1) s1 acc1 cs s2 hok
      omega

theorem classLoopF_height (rf : RecFn) (h : Heap) (d : Nat)
    (Hrf : ∀ nm v st n st2,
      rf nm v st = Except.ok (n, st2) → nodeHeight n ≤ d) :
    ∀ (attrs : List (String × AttrVal)) (s : List Nat) (acc cs : List Node)
      (s2 : List Nat),
    classLoopF rf h d attrs s acc = Except.ok (cs, s2) →
    nodeHeightList cs ≤ max (nodeHeightList acc) d := by
  intro attrs
  induction attrs with
  | nil =>
    intro s acc cs s2 hok
    rw [classLoopF] at hok
    simp only [Except.ok.injEq, Prod.mk.injEq] at hok
    rw [← hok.1]; omega
  | cons e rest ih =>
    intro s acc cs s2 hok
    obtain ⟨an, av⟩ := e
    rw [classLoopF] at hok
    by_cases hu : pyStartsWith an "_"
    · simp only [hu, if_true] at hok
      exact ih s acc cs s2 hok
    · simp only [hu, if_false] at hok
      by_cases hsk : classSkip h (classChildAddr h av)
      · simp only [hsk, if_true] at hok
        exact ih s acc cs s2 hok
      · simp only [hsk, if_false] at hok
        by_cases hd : 0 < d
        · simp only [hd, if_true] at hok
          cases ha : addChildF rf h an (classChildAddr h av) s acc with
          | error e => rw [ha] at hok; exact absurd hok (by simp)
          | ok r =>
            obtain ⟨acc1, s1⟩ := r
            rw [ha] at hok
            have h1 : nodeHeightList acc1 ≤ max (nodeHeightList acc) d :=
              addChildF_height rf d hd Hrf h an (classChildAddr h av) s acc
                acc1 s1 ha
            have h2 := ih s1 acc1 cs s2 hok
            omega
        · simp only [hd, if_false] at hok
          exact ih s acc cs s2 hok

theorem inspectGo_height :
    ∀ (fuel : Nat) (h : Heap) (mi : Nat) (name : String) (a : Nat)
      (s : List Nat) (n : Node) (s2 : List Nat),
    inspectGo h mi fuel name a s = Except.ok (n, s2) →
    nodeHeight n ≤ fuel := by
  intro fuel
  induction fuel with
  | zero =>
    intro h mi name a s n s2 hok
    rw [inspectGo] at hok
    exact absurd hok (by simp)
  | succ m ih =>
    intro h mi name a s n s2 hok
    have Hrf : ∀ nm v st nn st2,
        inspectGo h mi m nm v st = Except.ok (nn, st2) → nodeHeight nn ≤ m :=
      fun nm v st nn st2 hh => ih h mi nm v st nn st2 hh
    rw [inspectGo] at hok
    cases hobj : heapGet h a <;> rw [hobj] at hok <;> dsimp only at hok
    case vStr x =>
      simp only [Except.ok.injEq, Prod.mk.injEq] at hok
      rw [← hok.1]
      simp [simpleNode, nodeHeight, nodeHeightOpt]
    case vInt x =>
      simp only [Except.ok.injEq, Prod.mk.injEq] at hok
      rw [← hok.1]
      simp [simpleNode, nodeHeight, nodeHeightOpt]
    case vBool x =>
      simp only [Except.ok.injEq, Prod.mk.injEq] at hok
      rw [← hok.1]
      simp [simpleNode, nodeHeight, nodeHeightOpt]
    case vNone =>
      simp only [Except.ok.injEq, Prod.mk.injEq] at hok
      rw [← hok.1]
      simp [simpleNode, nodeHeight, nodeHeightOpt]
    case vMethod ps =>
      simp only [Except.ok.injEq, Prod.mk.injEq] at hok
      rw [← hok.1]
      simp [methodNode, nodeHeight, nodeHeightOpt]
    case vPartialCall fn ps args kwargs =>
      simp only [Except.ok.injEq, Prod.mk.injEq] at hok
      rw [← hok.1]
      simp [partialNode, nodeHeight, nodeHeightOpt]
    case vDict entries =>
      cases hl : dictLoopF (fun nm v st => inspectGo h mi m nm v st)
          h mi m entries s [] with
      | error e => rw [hl] at hok; exact absurd hok (by simp)
      | ok r =>
        obtain ⟨cs, s1⟩ := r
        rw [hl] at hok
        simp only [Except.ok.injEq, Prod.mk.injEq] at hok
        have hcs : nodeHeightList cs ≤ max (nodeHeightList []) m :=
          dictLoopF_height _ h mi m Hrf entries s [] cs s1 hl
        rw [← hok.1]
        simp only [dictNode, nodeHeight, nodeHeightOpt]
        simp only [nodeHeightList] at hcs
        omega
    case vList items =>
      cases hl : listLoopF (fun nm v st => inspectGo h mi m nm v st)
          h mi m 0 items s [] with
      | error e => rw [hl] at hok; exact absurd hok (by simp)
      | ok r =>
        obtain ⟨cs, s1⟩ := r
        rw [hl] at hok
        simp only [Except.ok.injEq, Prod.mk.injEq] at hok
        have hcs : nodeHeightList cs ≤ max (nodeHeightList []) m :=
          listLoopF_height _ h mi m Hrf items 0 s [] cs s1 hl
        rw [← hok.1]
        simp only [listNode, nodeHeight, nodeHeightOpt]
        simp only [nodeHeightList] at hcs
        omega
    case vQuerySet items =>
      by_cases hc : 0 < items.length ∧ 0 < m
      · rw [if_pos hc] at hok
        cases hl : qsLoopF (fun nm v st => inspectGo h mi m nm v st)
            h 0 (items.take mi) s [] with
        | error e => rw [hl] at hok; exact absurd hok (by simp)
        | ok r =>
          obtain ⟨cs, s1⟩ := r
          rw [hl] at hok
          simp only [Except.ok.injEq, Prod.mk.injEq] at hok
          have hcs : nodeHeightList cs ≤ max (nodeHeightList []) m :=
            qsLoopF_height _ h m hc.2 Hrf (items.take mi) 0 s [] cs s1 hl
          rw [← hok.1]
          simp only [qsNode, nodeHeight, nodeHeightOpt]
          simp only [nodeHeightList] at hcs
          omega
      · rw [if_neg hc] at hok
        simp only [Except.ok.injEq, Prod.mk.injEq] at hok
        rw [← hok.1]
        simp [qsNode, nodeHeight, nodeHeightOpt, nodeHeightList]
    case vBuiltin =>
      cases hl : classLoopF (fun nm v st => inspectGo h mi m nm v st)
          h m (classAttrs Obj.vBuiltin) s [] with
      | error e =>
        rw [hl] at hok; exact absurd hok (by simp)
      | ok r =>
        obtain ⟨cs, s1⟩ := r
        rw [hl] at hok
        simp only [Except.ok.injEq, Prod.mk.injEq] at hok
        have hcs : nodeHeightList cs ≤ max (nodeHeightList []) m :=
          classLoopF_height _ h m Hrf (classAttrs Obj.vBuiltin) s [] cs s1 hl
        rw [← hok.1]
        simp only [clsNode, nodeHeight, nodeHeightOpt]
        simp only [nodeHeightList] at hcs
        omega
    case vType =>
      cases hl : classLoopF (fun nm v st => inspectGo h mi m nm v st)
          h m (classAttrs Obj.vType) s [] with
      | error e =>
        rw [hl] at hok; exact absurd hok (by simp)
      | ok r =>
        obtain ⟨cs, s1⟩ := r
        rw [hl] at hok
        simp only [Except.ok.injEq, Prod.mk.injEq] at hok
        have hcs : nodeHeightList cs ≤ max (nodeHeightList []) m :=
          classLoopF_height _ h m Hrf (classAttrs Obj.vType) s [] cs s1 hl
        rw [← hok.1]
        simp only [clsNode, nodeHeight, nodeHeightOpt]
        simp only [nodeHeightList] at hcs
        omega
    case vClass dnc attrs =>
      cases hl : classLoopF (fun nm v st => inspectGo h mi m nm v st)
          h m (classAttrs (Obj.vClass dnc attrs)) s [] with
      | error e =>
        rw [hl] at hok; exact absurd hok (by simp)
      | ok r =>
        obtain ⟨cs, s1⟩ := r
        rw [hl] at hok
        simp only [Except.ok.injEq, Prod.mk.injEq] at hok
        have hcs : nodeHeightList cs ≤ max (nodeHeightList []) m :=
          classLoopF_height _ h m Hrf (classAttrs (Obj.vClass dnc attrs)) s []
            cs s1 hl
        rw [← hok.1]
        simp only [clsNode, nodeHeight, nodeHeightOpt]
        simp only [nodeHeightList] at hcs
        omega

/-! Bridging lemmas. -/

theorem inspectFactory_eq_go (h : Heap) (mi : Nat) (name : String)
    (a : Nat) (d : Int) (s : List Nat) :
    inspectFactory h mi name a d s = inspectGo h mi d.toNat name a s := by
  unfold inspectFactory
  by_cases hd : d ≤ 0
  · have hz : d.toNat = 0 := by omega
    rw [if_pos hd, hz, inspectGo]
  · rw [if_neg hd]

theorem dictLoopF_depthZero (rf : RecFn) (h : Heap) (mi : Nat) :
    ∀ (entries : List (String × Nat)) (s : List Nat) (acc : List Node),
    dictLoopF rf h mi 0 entries s acc = Except.ok (acc, s) := by
  intro entries
  induction entries with
  | nil => intro s acc; rw [dictLoopF]
  | cons e rest ih =>
    intro s acc
    obtain ⟨k, v⟩ := e
    rw [dictLoopF]
    simp only [Nat.lt_irrefl, if_false]
    by_cases hb : mi ≤ acc.length
    · rw [if_pos hb]
    · rw [if_neg hb, ih]

theorem listLoopF_depthZero (rf : RecFn) (h : Heap) (mi : Nat) :
    ∀ (items : List Nat) (idx : Nat) (s : List Nat) (acc : List Node),
    listLoopF rf h mi 0 idx items s acc = Except.ok (acc, s) := by
  intro items
  induction items with
  | nil => intro idx s acc; rw [listLoopF]
  | cons v rest ih =>
    intro idx s acc
    rw [listLoopF]
    simp only [Nat.lt_irrefl, if_false]
    by_cases hb : mi ≤ idx
    · rw [if_pos hb]
    · rw [if_neg hb, ih]

theorem classLoopF_depthZero (rf : RecFn) (h : Heap) :
    ∀ (attrs : List (String × AttrVal)) (s : List Nat) (acc : List Node),
    classLoopF rf h 0 attrs s acc = Except.ok (acc, s) := by
  intro attrs
  induction attrs with
  | nil => intro s acc; rw [classLoopF]
  | cons e rest ih =>
    intro s acc
    obtain ⟨an, av⟩ := e
    rw [classLoopF]
    by_cases hu : pyStartsWith an "_" = true
    · rw [if_pos hu, ih]
    · rw [if_neg hu]
      by_cases hsk : classSkip h (classChildAddr h av) = true
      · rw [if_pos hsk, ih]
      · rw [if_neg hsk]
        simp only [Nat.lt_irrefl, if_false]
        rw [ih]

theorem heapGet_noneAddr : ∀ (h : Heap), heapGet h (noneAddr h) = Obj.vNone := by
  intro h
  simp [heapGet, noneAddr]

/-! Claim theorems. -/

/-- C1: for every object graph (reference cycles of any length
included), `InspectionManager(name, value, max_depth, max_items)` with
`max_depth >= 0` terminates with a tree: the recursive build is a total
function, and because each recursive descent strictly decreases the
depth budget the tree height is bounded by `max_depth + 1`. -/
theorem c1_termination (h : Heap) (name : String) (a : Nat) (mi : Nat)
    (d : Int) (hd : 0 ≤ d) :
    ∃ n, InspectionManager h name a d mi = Except.ok n ∧
      nodeHeight n ≤ d.toNat + 1 := by
  obtain ⟨⟨n, s2⟩, hok⟩ :=
    inspectGo_isOk (d.toNat + 1) h mi name a [] (Nat.succ_pos _)
  refine ⟨n, ?_, inspectGo_height _ h mi name a [] n s2 hok⟩
  unfold InspectionManager
  rw [inspectFactory_eq_go]
  have he : (d + 1).toNat = d.toNat + 1 := by omega
  rw [he, hok]

/-- Witness for C1 on a cyclic graph (`x = {}; x["self"] = x`). -/
theorem c1_termination_witness :
    0 ≤ (2 : Int) ∧
    ∃ n, InspectionManager [Obj.vDict [("self", 0)]] "x" 0 2 5 =
        Except.ok n ∧ nodeHeight n ≤ 3 :=
  ⟨by decide, c1_termination [Obj.vDict [("self", 0)]] "x" 0 5 2 (by decide)⟩

/-- C2, the code evaluated at a failing input (`[y, y]` with `y = []`):
the node at the point of re-entry has kind Duplicate and no children,
but its linkTo is `id(None)` (here the None address 2) because
`_add_child` constructs `InspectDuplicate` with `obj = None`, while the
first-seen node for the same object reports identity 1. -/
theorem c2_duplicate_link_evaluation :
    ((rootNode (InspectionManager [Obj.vList [1, 1], Obj.vList []]
        "xs" 0 2 5)).bind (fun n => childAt n 1)).map
      (fun c => (kindOf c, (Node.info c).linkTo,
                 (Node.children c).isSome)) =
      some (Kind.duplicate, some 2, false) ∧
    ((rootNode (InspectionManager [Obj.vList [1, 1], Obj.vList []]
        "xs" 0 2 5)).bind (fun n => childAt n 0)).map
      (fun c => (Node.info c).objId) = some 1 ∧
    (2 : Nat) ≠ 1 :=
  ⟨rfl, rfl, by decide⟩

/-- C3 counterexample: for `x = {}; x["self"] = x`, the root's child
"self" has kind Mapping, not Duplicate — the root's identity is not
registered before its children are classified. -/
theorem c3_counterexample :
    ((rootNode (InspectionManager [Obj.vDict [("self", 0)]]
        "x" 0 2 5)).bind (fun n => childAt n 0)).map kindOf =
      some Kind.dict ∧
    Kind.dict ≠ Kind.duplicate :=
  ⟨rfl, by decide⟩

/-- C3 amended: registration happens in the parent's `_add_child`:
after `been_seen_before`, every non-scalar value is in the visited set
(registered right there when new), and `_add_child` classifies an
unseen value with exactly that post-registration set, so every
non-scalar value other than the root is registered before any of its
children are classified.  The root itself is classified starting from
the empty visited set (never pre-registered), so
`x = {}; x["self"] = x` yields a root Mapping with one child "self"
that is again a Mapping, whose own child "self" is the Duplicate (and
its linkTo is `id(None)`, here 1). -/
theorem c3_registration_after_root :
    (∀ (h : Heap) (s : List Nat) (v : Nat),
      isSimpleOrNone (heapGet h v) = false →
        v ∈ (beenSeenBefore h s v).2 ∧
        ((beenSeenBefore h s v).1 = false →
          (beenSeenBefore h s v).2 = v :: s)) ∧
    (∀ (rf : RecFn) (h : Heap) (nm : String) (v : Nat) (s : List Nat)
        (acc : List Node),
      (beenSeenBefore h s v).1 = false →
      addChildF rf h nm v s acc =
        match rf nm v (beenSeenBefore h s v).2 with
        | .ok (n, s2) => Except.ok (acc ++ [n], s2)
        | .error e => Except.error e) ∧
    (∀ (h : Heap) (name : String) (a : Nat) (d : Int) (mi : Nat),
      InspectionManager h name a d mi =
        match inspectFactory h mi name a (d + 1) [] with
        | .ok (n, _) => Except.ok n
        | .error e => Except.error e) ∧
    ((rootNode (InspectionManager [Obj.vDict [("self", 0)]]
        "x" 0 2 5)).map
      (fun n => (kindOf n, (Node.children n).map List.length)) =
      some (Kind.dict, some 1)) ∧
    (((rootNode (InspectionManager [Obj.vDict [("self", 0)]]
        "x" 0 2 5)).bind (fun n => childAt n 0)).map
      (fun c => (kindOf c, (Node.info c).name)) =
      some (Kind.dict, "self")) ∧
    (((rootNode (InspectionManager [Obj.vDict [("self", 0)]]
        "x" 0 2 5)).bind
        (fun n => (childAt n 0).bind (fun c => childAt c 0))).map
      (fun g => (kindOf g, (Node.info g).name, (Node.info g).linkTo,
                 (Node.children g).isSome)) =
      some (Kind.duplicate, "self", some 1, false)) := by
  refine ⟨?_, ?_, fun h name a d mi => rfl, rfl, rfl, rfl⟩
  · intro h s v hns
    unfold beenSeenBefore
    rw [if_neg (by simp [hns])]
    by_cases hm : v ∈ s
    · rw [if_pos hm]
      exact ⟨hm, fun hc => nomatch hc⟩
    · rw [if_neg hm]
      exact ⟨List.mem_cons_self v s, fun _ => rfl⟩
  · intro rf h nm v s acc hseen
    unfold addChildF
    rw [if_neg (by simp [hseen])]

/-- Witness for C3 amended, on the self-referencing dict. -/
theorem c3_registration_witness :
    isSimpleOrNone (heapGet [Obj.vDict [("self", 0)]] 0) = false ∧
    0 ∈ (beenSeenBefore [Obj.vDict [("self", 0)]] [] 0).2 ∧
    (beenSeenBefore [Obj.vDict [("self", 0)]] [] 0).2 = 0 :: [] ∧
    addChildF
        (fun nm v st => inspectGo [Obj.vDict [("self", 0)]] 5 1 nm v st)
        [Obj.vDict [("self", 0)]] "self" 0 [] [] =
      match inspectGo [Obj.vDict [("self", 0)]] 5 1 "self" 0
          (beenSeenBefore [Obj.vDict [("self", 0)]] [] 0).2 with
      | .ok (n, s2) => Except.ok ([] ++ [n], s2)
      | .error e => Except.error e :=
  ⟨rfl,
   (c3_registration_after_root.1 [Obj.vDict [("self", 0)]] [] 0 rfl).1,
   (c3_registration_after_root.1 [Obj.vDict [("self", 0)]] [] 0 rfl).2 rfl,
   c3_registration_after_root.2.1 _ [Obj.vDict [("self", 0)]]
     "self" 0 [] [] rfl⟩

/-- C4, the code evaluated at a failing input: a list of K = 3 items
inspected with max_items = 1 and positive remaining depth expands 2
children (the `index >= max_items` break fires one element late), not
the claimed M = 1, while declaredChildCount is the true 3. -/
theorem c4_list_truncation_evaluation :
    (rootNode (InspectionManager
        [Obj.vList [1, 2, 3], Obj.vInt 10, Obj.vInt 20, Obj.vInt 30]
        "xs" 0 1 1)).map
      (fun n => ((Node.children n).map List.length,
                 (Node.info n).totalChildren)) =
      some (some 2, some 3) ∧
    (2 : Nat) ≠ 1 :=
  ⟨rfl, by decide⟩

/-- C5 counterexample: a dict inspected with zero remaining depth has
`children = some []` (an expanded-to-empty list), not the claimed
`none`. -/
theorem c5_counterexample :
    (rootNode (InspectionManager [Obj.vDict [("a", 1)], Obj.vInt 1]
        "d" 0 0 5)).map
      (fun n => ((Node.children n).isSome,
                 (Node.children n).map List.length)) =
      some (true, some 0) :=
  rfl

/-- C5 amended: every container variant reached with zero remaining
depth still reports its kind and title, and its children field is the
empty list rather than null (`get_total_children` is non-None for
containers, so `get_children` returns the unexpanded `[]`); the
declaredChildCount is the true entry count for Mapping, Sequence and
LazyCollection, while Composite reports 0 (it counts expanded
children). -/
theorem c5_amended_depth_exhausted :
    (∀ (h : Heap) (name : String) (a : Nat) (entries : List (String × Nat))
        (mi : Nat), heapGet h a = Obj.vDict entries →
      ∃ n, InspectionManager h name a 0 mi = Except.ok n ∧
        kindOf n = Kind.dict ∧ (Node.info n).title = name ∧
        (Node.info n).totalChildren = some entries.length ∧
        Node.children n = some []) ∧
    (∀ (h : Heap) (name : String) (a : Nat) (items : List Nat) (mi : Nat),
        heapGet h a = Obj.vList items →
      ∃ n, InspectionManager h name a 0 mi = Except.ok n ∧
        kindOf n = Kind.list ∧ (Node.info n).title = name ∧
        (Node.info n).totalChildren = some items.length ∧
        Node.children n = some []) ∧
    (∀ (h : Heap) (name : String) (a : Nat) (items : List Nat) (mi : Nat),
        heapGet h a = Obj.vQuerySet items →
      ∃ n, InspectionManager h name a 0 mi = Except.ok n ∧
        kindOf n = Kind.querySet ∧ (Node.info n).title = name ∧
        (Node.info n).totalChildren = some items.length ∧
        Node.children n = some []) ∧
    (∀ (h : Heap) (name : String) (a : Nat) (dnc : Bool)
        (attrs : List (String × AttrVal)) (mi : Nat),
        heapGet h a = Obj.vClass dnc attrs →
      ∃ n, InspectionManager h name a 0 mi = Except.ok n ∧
        kindOf n = Kind.cls ∧ (Node.info n).title = name ∧
        (Node.info n).totalChildren = some 0 ∧
        Node.children n = some []) := by
  refine ⟨?_, ?_, ?_, ?_⟩
  · intro h name a entries mi hobj
    unfold InspectionManager
    rw [inspectFactory_eq_go]
    have he : ((0 : Int) + 1).toNat = 0 + 1 := by omega
    rw [he, inspectGo, hobj]
    dsimp only
    rw [dictLoopF_depthZero]
    exact ⟨_, rfl, rfl, rfl, rfl, rfl⟩
  · intro h name a items mi hobj
    unfold InspectionManager
    rw [inspectFactory_eq_go]
    have he : ((0 : Int) + 1).toNat = 0 + 1 := by omega
    rw [he, inspectGo, hobj]
    dsimp only
    rw [listLoopF_depthZero]
    exact ⟨_, rfl, rfl, rfl, rfl, rfl⟩
  · intro h name a items mi hobj
    unfold InspectionManager
    rw [inspectFactory_eq_go]
    have he : ((0 : Int) + 1).toNat = 0 + 1 := by omega
    rw [he, inspectGo, hobj]
    dsimp only
    rw [if_neg (by omega)]
    exact ⟨_, rfl, rfl, rfl, rfl, rfl⟩
  · intro h name a dnc attrs mi hobj
    unfold InspectionManager
    rw [inspectFactory_eq_go]
    have he : ((0 : Int) + 1).toNat = 0 + 1 := by omega
    rw [he, inspectGo, hobj]
    dsimp only
    rw [classLoopF_depthZero]
    exact ⟨_, rfl, rfl, rfl, rfl, rfl⟩

/-- Witness for C5 amended, one instance per container variant. -/
theorem c5_amended_witness :
    (∃ n, InspectionManager [Obj.vDict [("a", 1)], Obj.vInt 1]
        "d" 0 0 7 = Except.ok n ∧
      kindOf n = Kind.dict ∧ (Node.info n).title = "d" ∧
      (Node.info n).totalChildren = some [("a", 1)].length ∧
      Node.children n = some []) ∧
    (∃ n, InspectionManager [Obj.vList [1, 1, 1], Obj.vInt 4]
        "xs" 0 0 7 = Except.ok n ∧
      kindOf n = Kind.list ∧ (Node.info n).title = "xs" ∧
      (Node.info n).totalChildren = some [1, 1, 1].length ∧
      Node.children n = some []) ∧
    (∃ n, InspectionManager [Obj.vQuerySet [1], Obj.vInt 4]
        "q" 0 0 7 = Except.ok n ∧
      kindOf n = Kind.querySet ∧ (Node.info n).title = "q" ∧
      (Node.info n).totalChildren = some [1].length ∧
      Node.children n = some []) ∧
    (∃ n, InspectionManager [Obj.vClass false [("a", AttrVal.val 0)]]
        "c" 0 0 7 = Except.ok n ∧
      kindOf n = Kind.cls ∧ (Node.info n).title = "c" ∧
      (Node.info n).totalChildren = some 0 ∧
      Node.children n = some []) :=
  ⟨c5_amended_depth_exhausted.1 [Obj.vDict [("a", 1)], Obj.vInt 1]
     "d" 0 [("a", 1)] 7 rfl,
   c5_amended_depth_exhausted.2.1 [Obj.vList [1, 1, 1], Obj.vInt 4]
     "xs" 0 [1, 1, 1] 7 rfl,
   c5_amended_depth_exhausted.2.2.1 [Obj.vQuerySet [1], Obj.vInt 4]
     "q" 0 [1] 7 rfl,
   c5_amended_depth_exhausted.2.2.2 [Obj.vClass false [("a", AttrVal.val 0)]]
     "c" 0 false [("a", AttrVal.val 0)] 7 rfl⟩

/-- C6: a string value classified as Scalar whose field name contains
"password" in any letter case renders valueText as a double-quoted run
of asterisks whose length equals the true string length — the output
depends only on the length, never on the characters. -/
theorem c6_password_masking (h : Heap) (name : String) (a : Nat)
    (v : String) (d : Int) (mi : Nat) (hd : 0 ≤ d)
    (hobj : heapGet h a = Obj.vStr v)
    (hpw : strContains (pyLower name) "password" = true) :
    ∃ n, InspectionManager h name a d mi = Except.ok n ∧
      (Node.info n).value =
        pyQuote (String.mk (List.replicate v.length '*')) := by
  unfold InspectionManager
  rw [inspectFactory_eq_go]
  have he : (d + 1).toNat = d.toNat + 1 := by omega
  rw [he, inspectGo, hobj]
  dsimp only
  refine ⟨_, rfl, ?_⟩
  simp [simpleNode, Node.info, simpleGetFormatValue, simpleValueObj,
    pyStr, hpw]

/-- Witness for C6. -/
theorem c6_password_masking_witness :
    0 ≤ (2 : Int) ∧
    heapGet [Obj.vStr "abc"] 0 = Obj.vStr "abc" ∧
    strContains (pyLower "Password1") "password" = true ∧
    ∃ n, InspectionManager [Obj.vStr "abc"] "Password1" 0 2 5 =
        Except.ok n ∧
      (Node.info n).value =
        pyQuote (String.mk (List.replicate "abc".length '*')) :=
  ⟨by decide, rfl, rfl,
   c6_password_masking [Obj.vStr "abc"] "Password1" 0 "abc" 2 5
     (by decide) rfl rfl⟩

/-- C7, the code evaluated at a failing input: for
`partial(f, 1)` over `f(a, b)`, parameter `a` renders as `a=1` and the
title is synthesized as claimed, but the unbound parameter `b` renders
as `b=(complex)` instead of the bare name `b` — the stored per-parameter
value is never `None`, so the bare-name branch of `get_format_value`
is dead. -/
theorem c7_partial_param_evaluation :
    (rootNode (InspectionManager
        [Obj.vPartialCall "f" ["a", "b"] [1] [], Obj.vInt 1]
        "p" 0 2 5)).map
      (fun n => ((Node.info n).value, (Node.info n).title)) =
      some ("a=1, b=(complex)", "p(...) -> f") ∧
    ("a=1, b=(complex)" : String) ≠ "a=1, b" :=
  ⟨rfl, by decide⟩

/-- C8 counterexample: when reading attribute "boomAttr" raises an
AttributeError with message "boom" during class expansion, the child is
included but its valueText is the quoted None rendering, which does not
embed the failure message. -/
theorem c8_counterexample :
    ((rootNode (InspectionManager
        [Obj.vClass false
           [("alpha", AttrVal.val 1),
            ("boomAttr", AttrVal.attrError "boom"),
            ("beta", AttrVal.val 2)],
         Obj.vInt 7, Obj.vInt 8] "obj" 0 2 5)).bind
        (fun n => childAt n 1)).map
      (fun c => ((Node.info c).name, (Node.info c).value)) =
      some ("boomAttr", pyQuote "None") ∧
    strContains (pyQuote "None") "boom" = false :=
  ⟨rfl, rfl⟩

/-- C8 amended: if reading an attribute raises `AttributeError` during
Composite expansion, the `getattr(obj, name, None)` default recovers
locally — universally over heap, budgets, visited state, position in
the attribute enumeration, and remaining siblings, one expansion step
for a public attribute whose getter raises appends exactly one child
holding the `None` value and then continues with the remaining sibling
attributes from an unchanged visited set, for every failure message,
which is never embedded.  The child's valueText is the quoted "None"
when the attribute name does not contain "password" (case-insensitive),
and the masked quoted "****" when it does.  (Exceptions other than
`AttributeError` are not caught by this code.) -/
theorem c8_amended_attr_error_recovery :
    ∀ (h : Heap) (mi m : Nat) (nm msg : String)
      (rest : List (String × AttrVal)) (s : List Nat) (acc : List Node),
      0 < m → pyStartsWith nm "_" = false →
      (classLoopF (fun n2 v st => inspectGo h mi m n2 v st) h m
          ((nm, AttrVal.attrError msg) :: rest) s acc =
        classLoopF (fun n2 v st => inspectGo h mi m n2 v st) h m
          rest s (acc ++ [simpleNode nm (noneAddr h) Obj.vNone])) ∧
      (strContains (pyLower nm) "password" = false →
        (Node.info (simpleNode nm (noneAddr h) Obj.vNone)).value =
          pyQuote "None") ∧
      (strContains (pyLower nm) "password" = true →
        (Node.info (simpleNode nm (noneAddr h) Obj.vNone)).value =
          pyQuote "****") := by
  intro h mi m nm msg rest s acc hm hu
  obtain ⟨k, rfl⟩ : ∃ k, m = k + 1 := ⟨m - 1, by omega⟩
  refine ⟨?_, ?_, ?_⟩
  · have hca : classChildAddr h (AttrVal.attrError msg) = noneAddr h := rfl
    have hseen : beenSeenBefore h s (noneAddr h) = (false, s) := by
      simp [beenSeenBefore, heapGet_noneAddr, isSimpleOrNone, isNoneObj]
    have hadd : addChildF (fun n2 v st => inspectGo h mi (k + 1) n2 v st)
        h nm (noneAddr h) s acc =
        Except.ok (acc ++ [simpleNode nm (noneAddr h) Obj.vNone], s) := by
      unfold addChildF
      rw [hseen]
      rw [if_neg (fun hc => nomatch hc)]
      show (match inspectGo h mi (k + 1) nm (noneAddr h) s with
        | .ok (n, s2) => Except.ok (acc ++ [n], s2)
        | .error e => Except.error e) = _
      rw [inspectGo, heapGet_noneAddr]
    rw [classLoopF, if_neg (by simp [hu]), hca,
      if_neg (by simp [classSkip, heapGet_noneAddr]), if_pos hm, hadd]
  · intro hpw
    simp [simpleNode, Node.info, simpleGetFormatValue, simpleValueObj,
      pyStr, hpw]
  · intro hpw
    simp [simpleNode, Node.info, simpleGetFormatValue, simpleValueObj,
      pyStr, hpw]
    rfl

/-- Witness for C8 amended. -/
theorem c8_amended_witness :
    0 < 2 ∧ pyStartsWith "boomAttr" "_" = false ∧
    strContains (pyLower "boomAttr") "password" = false ∧
    (classLoopF (fun n2 v st => inspectGo [] 5 2 n2 v st) [] 2
        [("boomAttr", AttrVal.attrError "boom"), ("beta", AttrVal.val 0)]
        [] [] =
      classLoopF (fun n2 v st => inspectGo [] 5 2 n2 v st) [] 2
        [("beta", AttrVal.val 0)] []
        ([] ++ [simpleNode "boomAttr" (noneAddr []) Obj.vNone])) ∧
    (Node.info (simpleNode "boomAttr" (noneAddr []) Obj.vNone)).value =
      pyQuote "None" :=
  ⟨by decide, rfl, rfl,
   (c8_amended_attr_error_recovery [] 5 2 "boomAttr" "boom"
      [("beta", AttrVal.val 0)] [] [] (by decide) rfl).1,
   (c8_amended_attr_error_recovery [] 5 2 "boomAttr" "boom"
      [("beta", AttrVal.val 0)] [] [] (by decide) rfl).2.1 rfl⟩

/-- C9: `inspect_factory` raises the internal-consistency error exactly
when invoked with zero or negative remaining depth, and a top-level
`InspectionManager(name, value, max_depth >= 0, max_items)` run never
reaches that branch: children are only created when the parent's
remaining depth is positive. -/
theorem c9_depth_guard (h : Heap) (mi : Nat) (name : String) (a : Nat)
    (s : List Nat) (d : Int) :
    (exOk (inspectFactory h mi name a d s) = true ↔ 0 < d) ∧
    (0 ≤ d → exOk (InspectionManager h name a d mi) = true) := by
  constructor
  · constructor
    · intro hok
      by_contra hneg
      have hd : d ≤ 0 := by omega
      rw [inspectFactory, if_pos hd] at hok
      exact absurd hok (by simp [exOk])
    · intro hpos
      obtain ⟨r, hr⟩ := inspectGo_isOk d.toNat h mi name a s (by omega)
      rw [inspectFactory_eq_go, hr]
      rfl
  · intro hd
    obtain ⟨⟨n, s2⟩, hok⟩ :=
      inspectGo_isOk (d.toNat + 1) h mi name a [] (Nat.succ_pos _)
    unfold InspectionManager
    rw [inspectFactory_eq_go]
    have he : (d + 1).toNat = d.toNat + 1 := by omega
    rw [he, hok]
    rfl

/-- Witness for C9. -/
theorem c9_depth_guard_witness :
    ((exOk (inspectFactory [Obj.vInt 5] 4 "x" 0 2 []) = true ↔
        0 < (2 : Int)) ∧
      (0 ≤ (2 : Int) →
        exOk (InspectionManager [Obj.vInt 5] "x" 0 2 4) = true)) ∧
    exOk (InspectionManager [Obj.vInt 5] "x" 0 2 4) = true :=
  ⟨c9_depth_guard [Obj.vInt 5] 4 "x" 0 [] 2,
   (c9_depth_guard [Obj.vInt 5] 4 "x" 0 [] 2).2 (by decide)⟩

/-- C10 counterexample: for field name "password" and value 5, the
Scalar valueText is the quoted mask, not the quoted string form of the
value. -/
theorem c10_counterexample :
    simpleGetFormatValue "password" (Obj.vInt 5) = pyQuote "*" ∧
    pyQuote "*" ≠ pyQuote "5" :=
  ⟨rfl, by decide⟩

/-- C10 amended: for every value classified as Scalar, regardless of
runtime type, the stored value is `str(obj)`, so the output is always
double-quoted (the unquoted branch is never taken); when the field name
does not contain "password" (case-insensitively), the valueText is
exactly the string form wrapped in double quotes. -/
theorem c10_amended_always_quoted (name : String) (o : Obj) :
    (strContains (pyLower name) "password" = false →
      simpleGetFormatValue name o = pyQuote (pyStr o)) ∧
    ∃ s, simpleGetFormatValue name o = pyQuote s := by
  constructor
  · intro hpw
    simp [simpleGetFormatValue, simpleValueObj, hpw]
  · by_cases hpw :
      strContains (pyLower name) "password" = true
    · simp only [simpleGetFormatValue, simpleValueObj, hpw, if_true]
      exact ⟨_, rfl⟩
    · simp only [simpleGetFormatValue, simpleValueObj, hpw, if_false]
      exact ⟨_, rfl⟩

/-- Witness for C10 amended. -/
theorem c10_amended_witness :
    simpleGetFormatValue "count" (Obj.vInt 5) =
      pyQuote (pyStr (Obj.vInt 5)) ∧
    ∃ s, simpleGetFormatValue "count" (Obj.vInt 5) = pyQuote s :=
  ⟨(c10_amended_always_quoted "count" (Obj.vInt 5)).1 (by decide),
   (c10_amended_always_quoted "count" (Obj.vInt 5)).2⟩

end PartTemplatesInspect
